import Mathlib

/-!
Verification of pyMilk core logic (symmetry codes, squeeze slices, SHM handle
bookkeeping, FPS parameter store) against its natural-language specification.

Arrays are embedded shallowly: a 2D numpy array of shape (m, n) is a function
`Fin m → Fin n → α`, a 3D array similarly; element dtypes are the type
parameter `α`, so every statement holds uniformly for integer, float and
complex element types (the transforms only move elements, never compute on
them).  Python exceptions are modelled by `Except PyErr`.
-/

namespace PyMilk

/-- Error kinds of the `AutoRelinkError` exception hierarchy in
`pyMilk/errors.py`: `AutoRelinkError` itself plus its two subclasses
`AutoRelinkSizeError` and `AutoRelinkTypeError`. -/
inductive RelinkKind where
  | generic
  | size
  | type
  deriving DecidableEq, Repr

/-- Python exception kinds raised by the modelled code paths. -/
inductive PyErr where
  | valueError
  | indexError
  | assertionError
  | fileNotFound
  | notImplemented
  | smartFPSInit
  | autoRelink (k : RelinkKind)
  deriving DecidableEq, Repr

/-- 2D array of shape `(d0, d1)`: numpy `arr[i, j] = dat i j`. -/
structure Img (α : Type) where
  d0 : Nat
  d1 : Nat
  dat : Fin d0 → Fin d1 → α

/-- 3D array of shape `(d0, d1, d2)`. -/
structure Cube (α : Type) where
  d0 : Nat
  d1 : Nat
  d2 : Nat
  dat : Fin d0 → Fin d1 → Fin d2 → α

variable {α : Type}

/-- numpy `im.T` for 2D. -/
def Img.transpose (im : Img α) : Img α :=
  ⟨im.d1, im.d0, fun j i => im.dat i j⟩

/-- numpy `im[::-1, :]`. -/
def Img.flip0 (im : Img α) : Img α :=
  ⟨im.d0, im.d1, fun i j => im.dat i.rev j⟩

/-- numpy `im[:, ::-1]`. -/
def Img.flip1 (im : Img α) : Img α :=
  ⟨im.d0, im.d1, fun i j => im.dat i j.rev⟩

/-- numpy `np.swapaxes(cube, 1, 2)`. -/
def Cube.swap12 (c : Cube α) : Cube α :=
  ⟨c.d0, c.d2, c.d1, fun i k j => c.dat i j k⟩

/-- numpy `np.swapaxes(cube, 0, 1)`. -/
def Cube.swap01 (c : Cube α) : Cube α :=
  ⟨c.d1, c.d0, c.d2, fun j i k => c.dat i j k⟩

/-- numpy `cube[::-1, :, :]`. -/
def Cube.flipAx0 (c : Cube α) : Cube α :=
  ⟨c.d0, c.d1, c.d2, fun i j k => c.dat i.rev j k⟩

/-- numpy `cube[:, ::-1, :]`. -/
def Cube.flipAx1 (c : Cube α) : Cube α :=
  ⟨c.d0, c.d1, c.d2, fun i j k => c.dat i j.rev k⟩

/-- numpy `cube[:, :, ::-1]`. -/
def Cube.flipAx2 (c : Cube α) : Cube α :=
  ⟨c.d0, c.d1, c.d2, fun i j k => c.dat i j k.rev⟩

/-- Python list indexing `l[s]` for `s : int`: negative indices count from the
end; out of range raises `IndexError`. -/
def pyListGet (l : List Int) (s : Int) : Except PyErr Int :=
  if h : 0 ≤ s ∧ s < l.length then
    .ok (l.get ⟨s.toNat, by omega⟩)
  else if h2 : -(l.length : Int) ≤ s ∧ s < 0 then
    .ok (l.get ⟨(s + l.length).toNat, by omega⟩)
  else
    .error .indexError

/-!  ## `pyMilk/util/img_shapes.py`: the 2D / 3D symmetry code engine  -/

/-- Terminal cases (codes 0-3) of `image_encode`'s if/elif chain:
identity, `im[::-1, :]`, `im[:, ::-1]`, `im[::-1, ::-1]`, else `ValueError`. -/
def image_encode_flips (im : Img α) (s : Int) : Except PyErr (Img α) :=
  if s = 0 then .ok im
  else if s = 1 then .ok im.flip0
  else if s = 2 then .ok im.flip1
  else if s = 3 then .ok im.flip0.flip1
  else .error .valueError

/-- `image_encode`: for `s > 3 and s <= 7` the source recurses once on
`im.T` with `s - 4` (which lands in the 0-3 chain, so the single recursive
call is inlined here); all other codes go straight to the 0-3 chain. -/
def image_encode (im : Img α) (s : Int) : Except PyErr (Img α) :=
  if 3 < s ∧ s ≤ 7 then image_encode_flips im.transpose (s - 4)
  else image_encode_flips im s

/-- The inverse-code table `[0, 1, 2, 3, 4, 6, 5, 7]`. -/
def invTable : List Int := [0, 1, 2, 3, 4, 6, 5, 7]

/-- `image_decode`: `image_encode(x, [0,1,2,3,4,6,5,7][s])`, with Python list
indexing semantics for the table lookup. -/
def image_decode (im : Img α) (s : Int) : Except PyErr (Img α) :=
  (pyListGet invTable s).bind fun s2 => image_encode im s2

/-- Terminal cases (codes 0-3) of `cube_front_image_encode` (dim 0 is the
cube axis, the symmetry acts on axes 1 and 2). -/
def cube_front_flips (c : Cube α) (s : Int) : Except PyErr (Cube α) :=
  if s = 0 then .ok c
  else if s = 1 then .ok c.flipAx1
  else if s = 2 then .ok c.flipAx2
  else if s = 3 then .ok c.flipAx1.flipAx2
  else .error .valueError

/-- `cube_front_image_encode`: `if s > 3` (no upper bound in the source!)
recurse on `np.swapaxes(cube, 1, 2)` with `s - 4`. -/
def cube_front_image_encode (c : Cube α) (s : Int) : Except PyErr (Cube α) :=
  if 3 < s then cube_front_image_encode c.swap12 (s - 4)
  else cube_front_flips c s
termination_by s.toNat
decreasing_by omega

def cube_front_image_decode (c : Cube α) (s : Int) : Except PyErr (Cube α) :=
  (pyListGet invTable s).bind fun s2 => cube_front_image_encode c s2

/-- Terminal cases (codes 0-3) of `cube_back_image_encode` (dim 2 is the
cube axis, the symmetry acts on axes 0 and 1). -/
def cube_back_flips (c : Cube α) (s : Int) : Except PyErr (Cube α) :=
  if s = 0 then .ok c
  else if s = 1 then .ok c.flipAx0
  else if s = 2 then .ok c.flipAx1
  else if s = 3 then .ok c.flipAx0.flipAx1
  else .error .valueError

/-- `cube_back_image_encode`: `if s > 3` (no upper bound in the source!)
recurse on `np.swapaxes(cube, 0, 1)` with `s - 4`. -/
def cube_back_image_encode (c : Cube α) (s : Int) : Except PyErr (Cube α) :=
  if 3 < s then cube_back_image_encode c.swap01 (s - 4)
  else cube_back_flips c s
termination_by s.toNat
decreasing_by omega

def cube_back_image_decode (c : Cube α) (s : Int) : Except PyErr (Cube α) :=
  (pyListGet invTable s).bind fun s2 => cube_back_image_encode c s2

/-- `Which3DState.LAST2LAST`. -/
def LAST2LAST : Int := 0

/-- `Which3DState.LAST2FRONT`. -/
def LAST2FRONT : Int := 1

/-- `Which3DState.FRONT2FRONT`. -/
def FRONT2FRONT : Int := 2

/-- `Which3DState.FRONT2LAST`. -/
def FRONT2LAST : Int := 3

/-- numpy `np.moveaxis(cube, 2, 0)`: shape `(a,b,c) → (c,a,b)`. -/
def cube_roll_forw (c : Cube α) : Cube α :=
  ⟨c.d2, c.d0, c.d1, fun k i j => c.dat i j k⟩

/-- numpy `np.moveaxis(cube, 0, 2)`: shape `(a,b,c) → (b,c,a)`. -/
def cube_roll_back (c : Cube α) : Cube α :=
  ⟨c.d1, c.d2, c.d0, fun j k i => c.dat i j k⟩

theorem roll_back_forw (c : Cube α) : cube_roll_back (cube_roll_forw c) = c := rfl

theorem roll_forw_back (c : Cube α) : cube_roll_forw (cube_roll_back c) = c := rfl

/-- `full_cube_encode`: the axis symmetry (front variant for tri_dim in
`[FRONT2FRONT, FRONT2LAST]`, back variant otherwise) followed by the roll
(forward for `LAST2FRONT`, backward for `FRONT2LAST`). -/
def full_cube_encode (cube : Cube α) (s : Int) (tri_dim : Int) : Except PyErr (Cube α) :=
  (if tri_dim = FRONT2FRONT ∨ tri_dim = FRONT2LAST then cube_front_image_encode cube s
   else cube_back_image_encode cube s).map
    (fun c =>
      if tri_dim = LAST2FRONT then cube_roll_forw c
      else if tri_dim = FRONT2LAST then cube_roll_back c
      else c)

/-- `full_cube_decode`: the inverse roll first, then the axis-symmetry decode
(front variant for tri_dim in `[FRONT2LAST, FRONT2FRONT]`, back otherwise). -/
def full_cube_decode (cube : Cube α) (s : Int) (tri_dim : Int) : Except PyErr (Cube α) :=
  let cube2 :=
    if tri_dim = LAST2FRONT then cube_roll_back cube
    else if tri_dim = FRONT2LAST then cube_roll_forw cube
    else cube
  if tri_dim = FRONT2LAST ∨ tri_dim = FRONT2FRONT then cube_front_image_decode cube2 s
  else cube_back_image_decode cube2 s

/-!  ### Round-trip lemmas for the symmetry engine  -/

theorem invTable_get0 : pyListGet invTable 0 = .ok 0 := rfl
theorem invTable_get1 : pyListGet invTable 1 = .ok 1 := rfl
theorem invTable_get2 : pyListGet invTable 2 = .ok 2 := rfl
theorem invTable_get3 : pyListGet invTable 3 = .ok 3 := rfl
theorem invTable_get4 : pyListGet invTable 4 = .ok 4 := rfl
theorem invTable_get5 : pyListGet invTable 5 = .ok 6 := rfl
theorem invTable_get6 : pyListGet invTable 6 = .ok 5 := rfl
theorem invTable_get7 : pyListGet invTable 7 = .ok 7 := rfl

theorem image_roundtrip (x : Img α) (s : Int) (h0 : 0 ≤ s) (h8 : s < 8) :
    (image_encode x s).bind (fun y => image_decode y s) = .ok x := by
  obtain ⟨m, n, d⟩ := x
  interval_cases s <;>
    simp [image_encode, image_encode_flips, image_decode, invTable_get0,
      invTable_get1, invTable_get2, invTable_get3, invTable_get4, invTable_get5,
      invTable_get6, invTable_get7, Except.bind, Img.transpose, Img.flip0,
      Img.flip1, Fin.rev_rev]

theorem cube_front_roundtrip (x : Cube α) (s : Int) (h0 : 0 ≤ s) (h8 : s < 8) :
    (cube_front_image_encode x s).bind (fun y => cube_front_image_decode y s) = .ok x := by
  obtain ⟨a, b, c, d⟩ := x
  interval_cases s <;>
    simp [cube_front_image_encode, cube_front_image_decode, cube_front_flips,
      invTable_get0, invTable_get1, invTable_get2, invTable_get3, invTable_get4,
      invTable_get5, invTable_get6, invTable_get7, Except.bind, Cube.swap12,
      Cube.flipAx1, Cube.flipAx2, Fin.rev_rev]

theorem cube_back_roundtrip (x : Cube α) (s : Int) (h0 : 0 ≤ s) (h8 : s < 8) :
    (cube_back_image_encode x s).bind (fun y => cube_back_image_decode y s) = .ok x := by
  obtain ⟨a, b, c, d⟩ := x
  interval_cases s <;>
    simp [cube_back_image_encode, cube_back_image_decode, cube_back_flips,
      invTable_get0, invTable_get1, invTable_get2, invTable_get3, invTable_get4,
      invTable_get5, invTable_get6, invTable_get7, Except.bind, Cube.swap01,
      Cube.flipAx0, Cube.flipAx1, Fin.rev_rev]

theorem full_cube_roundtrip (x : Cube α) (s t : Int) (hs0 : 0 ≤ s) (hs8 : s < 8)
    (ht0 : 0 ≤ t) (ht4 : t < 4) :
    (full_cube_encode x s t).bind (fun y => full_cube_decode y s t) = .ok x := by
  interval_cases t
  · have h := cube_back_roundtrip x s hs0 hs8
    rcases henc : cube_back_image_encode x s with e | y
    · rw [henc] at h; simp [Except.bind] at h
    · rw [henc] at h; simp [Except.bind] at h
      simp [full_cube_encode, full_cube_decode, henc, Except.map, Except.bind,
        LAST2FRONT, FRONT2FRONT, FRONT2LAST, LAST2LAST, h]
  · have h := cube_back_roundtrip x s hs0 hs8
    rcases henc : cube_back_image_encode x s with e | y
    · rw [henc] at h; simp [Except.bind] at h
    · rw [henc] at h; simp [Except.bind] at h
      simp [full_cube_encode, full_cube_decode, henc, Except.map, Except.bind,
        LAST2FRONT, FRONT2FRONT, FRONT2LAST, LAST2LAST, roll_back_forw, h]
  · have h := cube_front_roundtrip x s hs0 hs8
    rcases henc : cube_front_image_encode x s with e | y
    · rw [henc] at h; simp [Except.bind] at h
    · rw [henc] at h; simp [Except.bind] at h
      simp [full_cube_encode, full_cube_decode, henc, Except.map, Except.bind,
        LAST2FRONT, FRONT2FRONT, FRONT2LAST, LAST2LAST, h]
  · have h := cube_front_roundtrip x s hs0 hs8
    rcases henc : cube_front_image_encode x s with e | y
    · rw [henc] at h; simp [Except.bind] at h
    · rw [henc] at h; simp [Except.bind] at h
      simp [full_cube_encode, full_cube_decode, henc, Except.map, Except.bind,
        LAST2FRONT, FRONT2FRONT, FRONT2LAST, LAST2LAST, roll_forw_back, h]

/-!  ### Out-of-range symcode behavior  -/

theorem image_encode_out_of_range (x : Img α) (s : Int) (h : s < 0 ∨ 7 < s) :
    image_encode x s = .error .valueError := by
  rw [image_encode, if_neg (by omega)]
  rw [image_encode_flips, if_neg (by omega), if_neg (by omega),
    if_neg (by omega), if_neg (by omega)]

theorem cube_front_encode_neg (x : Cube α) (s : Int) (h : s < 0) :
    cube_front_image_encode x s = .error .valueError := by
  rw [cube_front_image_encode, if_neg (by omega)]
  rw [cube_front_flips, if_neg (by omega), if_neg (by omega),
    if_neg (by omega), if_neg (by omega)]

theorem cube_back_encode_neg (x : Cube α) (s : Int) (h : s < 0) :
    cube_back_image_encode x s = .error .valueError := by
  rw [cube_back_image_encode, if_neg (by omega)]
  rw [cube_back_flips, if_neg (by omega), if_neg (by omega),
    if_neg (by omega), if_neg (by omega)]

/-- With no `s <= 7` guard, `cube_front_image_encode` silently succeeds for
EVERY nonnegative code: repeated `s - 4` steps always land in `[0, 3]`. -/
theorem cube_front_encode_ok_of_nonneg (n : Nat) :
    ∀ (x : Cube α) (s : Int), s.toNat = n → 0 ≤ s →
      ∃ y, cube_front_image_encode x s = .ok y := by
  induction n using Nat.strong_induction_on with
  | _ n ih =>
    intro x s hn h0
    by_cases h3 : 3 < s
    · obtain ⟨y, hy⟩ := ih (s - 4).toNat (by omega) x.swap12 (s - 4) rfl (by omega)
      exact ⟨y, by rw [cube_front_image_encode, if_pos h3]; exact hy⟩
    · have h4 : s = 0 ∨ s = 1 ∨ s = 2 ∨ s = 3 := by omega
      rw [cube_front_image_encode, if_neg h3, cube_front_flips]
      rcases h4 with h | h | h | h <;> subst h <;> simp

theorem cube_back_encode_ok_of_nonneg (n : Nat) :
    ∀ (x : Cube α) (s : Int), s.toNat = n → 0 ≤ s →
      ∃ y, cube_back_image_encode x s = .ok y := by
  induction n using Nat.strong_induction_on with
  | _ n ih =>
    intro x s hn h0
    by_cases h3 : 3 < s
    · obtain ⟨y, hy⟩ := ih (s - 4).toNat (by omega) x.swap01 (s - 4) rfl (by omega)
      exact ⟨y, by rw [cube_back_image_encode, if_pos h3]; exact hy⟩
    · have h4 : s = 0 ∨ s = 1 ∨ s = 2 ∨ s = 3 := by omega
      rw [cube_back_image_encode, if_neg h3, cube_back_flips]
      rcases h4 with h | h | h | h <;> subst h <;> simp

theorem image_encode_isOk (x : Img α) (s : Int) (h0 : 0 ≤ s) (h8 : s < 8) :
    ∃ y, image_encode x s = .ok y := by
  have h := image_roundtrip x s h0 h8
  rcases he : image_encode x s with e | y
  · rw [he] at h
    simp [Except.bind] at h
  · exact ⟨y, rfl⟩

theorem pyListGet_invTable_of_out (s : Int) (h : s < -8 ∨ 8 ≤ s) :
    pyListGet invTable s = .error .indexError := by
  rw [pyListGet]
  rw [dif_neg (by simp [invTable]; omega), dif_neg (by simp [invTable]; omega)]

/-- Python negative indexing: for `s ∈ [-8, -1]`, `invTable[s]` silently
yields the entry at `s + 8`, so the decode functions succeed. -/
theorem pyListGet_invTable_of_neg (s : Int) (h0 : -8 ≤ s) (h1 : s < 0) :
    ∃ v, pyListGet invTable s = .ok v ∧ 0 ≤ v ∧ v ≤ 7 := by
  interval_cases s <;> exact ⟨_, rfl, by decide, by decide⟩

/-!  ## Squeeze / unsqueeze slice generator (`gen_squeeze_unsqueeze_slices`)

The generated read slice replaces every singleton axis by the fixed index 0
(`slice(None)` elsewhere); the write slice reinserts a singleton axis via
`None` (numpy newaxis).  `np.s_[...]` (Ellipsis) is modelled by a dedicated
constructor whose application semantics is the identity.  -/

def Idx : List Nat → Type
  | [] => Unit
  | n :: r => Fin n × Idx r

structure NDA (α : Type) where
  shape : List Nat
  dat : Idx shape → α

def castIdx {a b : List Nat} (h : a = b) (ix : Idx a) : Idx b := h ▸ ix

theorem castIdx_cons {n : Nat} {a b : List Nat} (ht : a = b) (i : Fin n) (ix : Idx a) :
    castIdx (congrArg (List.cons n) ht) ((i, ix) : Idx (n :: a)) = (i, castIdx ht ix) := by
  subst ht; rfl

theorem NDA.ext_shape {x y : NDA α} (hs : x.shape = y.shape)
    (hd : ∀ ix, x.dat ix = y.dat (castIdx hs ix)) : x = y := by
  obtain ⟨sx, dx⟩ := x
  obtain ⟨sy, dy⟩ := y
  dsimp at hs
  subst hs
  have : dx = dy := funext fun ix => hd ix
  rw [this]

inductive RSliceEntry where
  | sliceAll
  | index0
  deriving DecidableEq, Repr

inductive WSliceEntry where
  | sliceAll
  | newaxis
  deriving DecidableEq, Repr

inductive RSlice where
  | ellipsis
  | entries (l : List RSliceEntry)
  deriving DecidableEq, Repr

inductive WSlice where
  | ellipsis
  | entries (l : List WSliceEntry)
  deriving DecidableEq, Repr

def gen_squeeze_unsqueeze_slices (shape_orig : List Nat) (autoSqueeze : Bool) :
    RSlice × WSlice :=
  if !autoSqueeze then (.ellipsis, .ellipsis)
  else
    (.entries (shape_orig.map fun n => if n ≠ 1 then .sliceAll else .index0),
     .entries (shape_orig.map fun n => if n ≠ 1 then .sliceAll else .newaxis))

def rdOK : List RSliceEntry → List Nat → Bool
  | [], [] => true
  | .sliceAll :: es, _ :: r => rdOK es r
  | .index0 :: es, (_ + 1) :: r => rdOK es r
  | .index0 :: _, 0 :: _ => false
  | [], _ :: _ => false
  | .sliceAll :: _, [] => false
  | .index0 :: _, [] => false

def rdShape : List RSliceEntry → List Nat → List Nat
  | .sliceAll :: es, n :: r => n :: rdShape es r
  | .index0 :: es, _ :: r => rdShape es r
  | _, _ => []

def rdIdx : (es : List RSliceEntry) → (sh : List Nat) → rdOK es sh = true →
    Idx (rdShape es sh) → Idx sh
  | [], [], _, _ => ()
  | .sliceAll :: es, _ :: r, h, ix => (ix.1, rdIdx es r h ix.2)
  | .index0 :: es, (n + 1) :: r, h, ix => (⟨0, Nat.succ_pos n⟩, rdIdx es r h ix)
  | .index0 :: _, 0 :: _, h, _ => Bool.noConfusion h
  | [], _ :: _, h, _ => Bool.noConfusion h
  | .sliceAll :: _, [], h, _ => Bool.noConfusion h
  | .index0 :: _, [], h, _ => Bool.noConfusion h

def wrOK : List WSliceEntry → List Nat → Bool
  | [], [] => true
  | .sliceAll :: es, _ :: r => wrOK es r
  | .newaxis :: es, sh => wrOK es sh
  | [], _ :: _ => false
  | .sliceAll :: _, [] => false

def wrShape : List WSliceEntry → List Nat → List Nat
  | .sliceAll :: es, n :: r => n :: wrShape es r
  | .newaxis :: es, sh => 1 :: wrShape es sh
  | _, _ => []

def wrIdx : (es : List WSliceEntry) → (sh : List Nat) → wrOK es sh = true →
    Idx (wrShape es sh) → Idx sh
  | [], [], _, _ => ()
  | .sliceAll :: es, _ :: r, h, ix => (ix.1, wrIdx es r h ix.2)
  | .newaxis :: es, sh, h, ix => wrIdx es sh h ix.2
  | [], _ :: _, h, _ => Bool.noConfusion h
  | .sliceAll :: _, [], h, _ => Bool.noConfusion h

def applyRSlice (rs : RSlice) (x : NDA α) : Option (NDA α) :=
  match rs with
  | .ellipsis => some x
  | .entries es =>
    if h : rdOK es x.shape = true then
      some ⟨rdShape es x.shape, fun ix => x.dat (rdIdx es x.shape h ix)⟩
    else none

def applyWSlice (ws : WSlice) (x : NDA α) : Option (NDA α) :=
  match ws with
  | .ellipsis => some x
  | .entries es =>
    if h : wrOK es x.shape = true then
      some ⟨wrShape es x.shape, fun ix => x.dat (wrIdx es x.shape h ix)⟩
    else none

def rdEntriesOf (sh : List Nat) : List RSliceEntry :=
  sh.map fun n => if n ≠ 1 then .sliceAll else .index0

def wrEntriesOf (sh : List Nat) : List WSliceEntry :=
  sh.map fun n => if n ≠ 1 then .sliceAll else .newaxis

theorem rdEntriesOf_cons_one (r : List Nat) :
    rdEntriesOf (1 :: r) = .index0 :: rdEntriesOf r := by
  simp [rdEntriesOf]

theorem rdEntriesOf_cons_ne (n : Nat) (r : List Nat) (h : n ≠ 1) :
    rdEntriesOf (n :: r) = .sliceAll :: rdEntriesOf r := by
  simp [rdEntriesOf, h]

theorem wrEntriesOf_cons_one (r : List Nat) :
    wrEntriesOf (1 :: r) = .newaxis :: wrEntriesOf r := by
  simp [wrEntriesOf]

theorem wrEntriesOf_cons_ne (n : Nat) (r : List Nat) (h : n ≠ 1) :
    wrEntriesOf (n :: r) = .sliceAll :: wrEntriesOf r := by
  simp [wrEntriesOf, h]

theorem rdOK_of (sh : List Nat) : rdOK (rdEntriesOf sh) sh = true := by
  induction sh with
  | nil => rfl
  | cons n r ih =>
    by_cases h : n = 1
    · subst h; rw [rdEntriesOf_cons_one]; exact ih
    · rw [rdEntriesOf_cons_ne n r h]; exact ih

theorem wrOK_of (sh : List Nat) :
    wrOK (wrEntriesOf sh) (rdShape (rdEntriesOf sh) sh) = true := by
  induction sh with
  | nil => rfl
  | cons n r ih =>
    by_cases h : n = 1
    · subst h; rw [wrEntriesOf_cons_one, rdEntriesOf_cons_one]; exact ih
    · rw [wrEntriesOf_cons_ne n r h, rdEntriesOf_cons_ne n r h]; exact ih

theorem wrShape_of (sh : List Nat) :
    wrShape (wrEntriesOf sh) (rdShape (rdEntriesOf sh) sh) = sh := by
  induction sh with
  | nil => rfl
  | cons n r ih =>
    by_cases h : n = 1
    · subst h; rw [wrEntriesOf_cons_one, rdEntriesOf_cons_one]
      exact congrArg (List.cons 1) ih
    · rw [wrEntriesOf_cons_ne n r h, rdEntriesOf_cons_ne n r h]
      exact congrArg (List.cons n) ih

theorem fin_one_eq {k : Nat} (i j : Fin (k + 1)) (hk : k = 0) : i = j := by
  subst hk
  have hi := i.isLt
  have hj := j.isLt
  apply Fin.ext
  omega

theorem rdIdx_wrIdx (sh : List Nat) :
    ∀ (h1 : rdOK (rdEntriesOf sh) sh = true)
      (h2 : wrOK (wrEntriesOf sh) (rdShape (rdEntriesOf sh) sh) = true)
      (hs : wrShape (wrEntriesOf sh) (rdShape (rdEntriesOf sh) sh) = sh)
      (ix : Idx (wrShape (wrEntriesOf sh) (rdShape (rdEntriesOf sh) sh))),
      rdIdx (rdEntriesOf sh) sh h1 (wrIdx (wrEntriesOf sh) _ h2 ix) = castIdx hs ix := by
  induction sh with
  | nil =>
    intro h1 h2 hs ix
    rw [Subsingleton.elim hs rfl]
    rfl
  | cons n r ih =>
    by_cases h : n = 1
    · subst h
      rw [rdEntriesOf_cons_one, wrEntriesOf_cons_one]
      intro h1 h2 hs ix
      obtain ⟨i, ix'⟩ := ix
      have ht : wrShape (wrEntriesOf r) (rdShape (rdEntriesOf r) r) = r := wrShape_of r
      rw [Subsingleton.elim hs (congrArg (List.cons 1) ht)]
      rw [castIdx_cons]
      exact Prod.ext (fin_one_eq _ _ rfl) (ih h1 h2 ht ix')
    · rw [rdEntriesOf_cons_ne n r h, wrEntriesOf_cons_ne n r h]
      intro h1 h2 hs ix
      obtain ⟨i, ix'⟩ := ix
      have ht : wrShape (wrEntriesOf r) (rdShape (rdEntriesOf r) r) = r := wrShape_of r
      rw [Subsingleton.elim hs (congrArg (List.cons n) ht)]
      rw [castIdx_cons]
      exact Prod.ext rfl (ih h1 h2 ht ix')

theorem applyRSlice_entries (es : List RSliceEntry) (x : NDA α)
    (h : rdOK es x.shape = true) :
    applyRSlice (.entries es) x =
      some ⟨rdShape es x.shape, fun ix => x.dat (rdIdx es x.shape h ix)⟩ := by
  simp [applyRSlice, h]

theorem applyWSlice_entries (es : List WSliceEntry) (x : NDA α)
    (h : wrOK es x.shape = true) :
    applyWSlice (.entries es) x =
      some ⟨wrShape es x.shape, fun ix => x.dat (wrIdx es x.shape h ix)⟩ := by
  simp [applyWSlice, h]

theorem squeeze_unsqueeze_roundtrip (shape : List Nat) (aS : Bool) (x : NDA α)
    (hx : x.shape = shape) :
    (applyRSlice (gen_squeeze_unsqueeze_slices shape aS).1 x).bind
      (fun y => applyWSlice (gen_squeeze_unsqueeze_slices shape aS).2 y) = some x := by
  subst hx
  cases aS with
  | false => simp [gen_squeeze_unsqueeze_slices, applyRSlice, applyWSlice]
  | true =>
    obtain ⟨sh, d⟩ := x
    have hg : gen_squeeze_unsqueeze_slices sh true =
        (.entries (rdEntriesOf sh), .entries (wrEntriesOf sh)) := rfl
    rw [hg]
    rw [applyRSlice_entries (rdEntriesOf sh) ⟨sh, d⟩ (rdOK_of sh)]
    rw [Option.some_bind]
    rw [applyWSlice_entries (wrEntriesOf sh) _ (wrOK_of sh)]
    refine congrArg some (NDA.ext_shape (wrShape_of sh) ?_)
    intro ix
    exact congrArg d (rdIdx_wrIdx sh _ _ (wrShape_of sh) ix)

/-!  ## `pyMilk/interfacing/isio_shmlib.py`: the SHM handle

`SHM` wraps an `ImageStreamIOWrap.Image`; the external C-side state (stream
content, inode, semaphore results) is passed in explicitly as an `SHMEnv`.  -/

/-- numpy element dtypes (opaque: the transforms never look inside). -/
inductive DType where
  | f32
  | f64
  | i32
  | i64
  | u16
  | c64
  | c128
  | other
  deriving DecidableEq, Repr

/-- A 1-, 2- or 3-dimensional numpy array, the shapes `SHM` accepts as the
`data` argument on the creation path. -/
inductive NDArr (α : Type) where
  | a1 (n : Nat) (d : Fin n → α)
  | a2 (im : Img α)
  | a3 (cu : Cube α)

/-- `.shape` of the array, as a list. -/
def NDArr.shapeList : NDArr α → List Nat
  | .a1 n _ => [n]
  | .a2 im => [im.d0, im.d1]
  | .a3 c => [c.d0, c.d1, c.d2]

def NDA.toImg (x : NDA α) : Option (Img α) :=
  match x with
  | ⟨[m, n], d⟩ => some ⟨m, n, fun i j => d (i, (j, ()))⟩
  | _ => none

def NDA.toCube (x : NDA α) : Option (Cube α) :=
  match x with
  | ⟨[a, b, c], d⟩ => some ⟨a, b, c, fun i j k => d (i, (j, (k, ())))⟩
  | _ => none

def Img.toNDA (im : Img α) : NDA α :=
  ⟨[im.d0, im.d1], fun ix => im.dat ix.1 ix.2.1⟩

def Cube.toNDA (c : Cube α) : NDA α :=
  ⟨[c.d0, c.d1, c.d2], fun ix => c.dat ix.1 ix.2.1 ix.2.2.1⟩

/-- The per-handle state an `SHM` object carries (`self.…` fields). -/
structure SHMHandle (α : Type) where
  shape_c : List Nat
  shape : List Nat
  nDim : Nat
  symcode : Int
  triDimState : Int
  readSlice : RSlice
  writeSlice : WSlice
  location : Int
  semID : Option Nat
  nptype : DType
  storedInode : Nat

/-- The external, C-side facts a call can observe: current file inode,
whether a re-open would succeed, the metadata of the re-opened stream, the
semaphore index `getsemwaitindex` would hand out, the `semtimedwait` return
code, and the current stream content (C-side shaped). -/
structure SHMEnv (α : Type) where
  currentInode : Nat
  reopenOK : Bool
  newSize : List Nat
  newDType : DType
  semIndex : Nat
  semTimedWaitErr : Int
  image : NDA α

/-- `SHM._attempt_autorelink_if_needed`: no-op when the stored inode matches
the file's current inode; otherwise close + reopen (`AutoRelinkError` if the
open fails), grab a semaphore index if none is held, then check the new wire
shape (`AutoRelinkSizeError`) and dtype (`AutoRelinkTypeError`). -/
def attempt_autorelink_if_needed (h : SHMHandle α) (env : SHMEnv α) :
    Except PyErr (SHMHandle α) :=
  if h.storedInode = env.currentInode then .ok h
  else if ¬env.reopenOK then .error (.autoRelink .generic)
  else if h.shape_c ≠ env.newSize then .error (.autoRelink .size)
  else if env.newDType ≠ h.nptype then .error (.autoRelink .type)
  else .ok { h with semID := some (h.semID.getD env.semIndex),
                    storedInode := env.currentInode }

/-- The read-side transform of `SHM.get_data`: apply `readSlice` to the
C-side array, then route through `image_decode` (`nDim == 2`) or
`full_cube_decode` (`nDim == 3`); other ranks pass through unchanged.
The rank-mismatch fallbacks are dead for a handle consistent with its
stream. -/
def shm_read_decode (nDim : Nat) (symcode triDim : Int) (rs : RSlice)
    (arr : NDA α) : Except PyErr (NDA α) :=
  match applyRSlice rs arr with
  | none => .error .indexError
  | some y =>
    if nDim = 2 then
      match y.toImg with
      | none => .error .indexError
      | some im => (image_decode im symcode).map Img.toNDA
    else if nDim = 3 then
      match y.toCube with
      | none => .error .indexError
      | some cu => (full_cube_decode cu symcode triDim).map Cube.toNDA
    else .ok y

/-- `SHM.get_data`: optional auto-relink, optional semaphore wait (flushing
first unless suppressed; a finite positive timeout uses `semtimedwait` and a
nonzero return only prints a stale-data warning), the GPU `copy=False`
assertion, then the read-side decode of the current content.  Returns the
stale-warning flag together with the data. -/
def get_data (h : SHMHandle α) (env : SHMEnv α) (check : Bool)
    (timeout : Option ℚ) (copy checkSemAndFlush autorelink_if_need : Bool) :
    Except PyErr (Bool × NDA α) :=
  (if autorelink_if_need then attempt_autorelink_if_needed h env
   else .ok h).bind fun h1 =>
  let h2 := if check && checkSemAndFlush then
      { h1 with semID := some (h1.semID.getD env.semIndex) }
    else h1
  let stale : Bool := check &&
    (match timeout with
     | none => false
     | some t => if t ≤ 0 then false else decide (env.semTimedWaitErr ≠ 0))
  if 0 ≤ h2.location ∧ copy = false then .error .assertionError
  else
    (shm_read_decode h2.nDim h2.symcode h2.triDimState h2.readSlice env.image).map
      fun d => (stale, d)

/-- The handle fields `SHM._init_internals_creation` assigns, plus whether
the singleton-dimension warning was printed. -/
structure CreationInternals where
  shape : List Nat
  nDim : Nat
  warnedSingleton : Bool
  readSlice : RSlice
  writeSlice : WSlice
  shape_c : List Nat
  deriving DecidableEq, Repr

/-- `SHM._init_internals_creation`: user-side shape is `data.shape`; a
singleton dimension only prints a warning; the slices are generated with
squeezing disabled (`gen_squeeze_unsqueeze_slices(self.shape, False)`); the
C-side data is the 2D/3D encode of the data (identity for 1D). -/
def init_internals_creation (data : NDArr α) (symcode triDimState : Int) :
    Except PyErr (CreationInternals × NDArr α) :=
  let shape := data.shapeList
  let warned := decide (1 ∈ shape)
  let slices := gen_squeeze_unsqueeze_slices shape false
  let data_c_e : Except PyErr (NDArr α) :=
    match data with
    | .a1 n d => .ok (NDArr.a1 n d)
    | .a2 im => (image_encode im symcode).map NDArr.a2
    | .a3 cu => (full_cube_encode cu symcode triDimState).map NDArr.a3
  data_c_e.map fun data_c =>
    (⟨shape, shape.length, warned, slices.1, slices.2, data_c.shapeList⟩, data_c)

/-- The creation branch of `SHM.__init__` (`data is not None`): it forwards
to `_init_internals_creation` and never consults the `autoSqueeze`
constructor argument. -/
def shm_init_creation (data : NDArr α) (autoSqueeze : Bool)
    (symcode triDimState : Int) : Except PyErr (CreationInternals × NDArr α) :=
  init_internals_creation data symcode triDimState

/-!  ## `pyMilk/interfacing/fps.py`: the FPS parameter store  -/

/-- `FPVal = str | bool | int | float` (floats as exact rationals: the
store only passes values through). -/
inductive FPVal where
  | vstr (s : String)
  | vbool (b : Bool)
  | vint (n : Int)
  | vfloat (q : ℚ)
  deriving DecidableEq, Repr

/-- An `FPS` handle: the python-side key/type registry `self.key_types`
(keys only; the declared types play no role in the key check) over the
C-side parameter store `self.fps`. -/
structure FPSHandle where
  key_types : List String
  store : String → FPVal

/-- `FPS.set_param`: route to `self.fps[key] = value` only when `key` is
registered, else `ValueError`. -/
def set_param (h : FPSHandle) (key : String) (value : FPVal) :
    Except PyErr FPSHandle :=
  if key ∈ h.key_types then
    .ok { h with store := fun k => if k = key then value else h.store k }
  else .error .valueError

/-- `FPS.get_param`: route to `self.fps[key]` only when `key` is registered,
else `ValueError`. -/
def get_param (h : FPSHandle) (key : String) : Except PyErr FPVal :=
  if key ∈ h.key_types then .ok (h.store key) else .error .valueError

/-!  ## `SmartAttributesFPS` schema validation  -/

/-- Python runtime values that can appear in a `_DICT_METADATA` entry. -/
inductive PyVal where
  | vstr (s : String)
  | vFPSType (t : Nat)
  | vFPSFlags (f : Nat)
  | vint (n : Int)
  | vnone
  deriving DecidableEq, Repr

inductive SmartFPSInitError where
  | missingMetadata
  | annotationsDiffer
  | tupleNotLen3 (param : String)
  | tupleTypeNotOK (param : String)
  deriving DecidableEq, Repr

/-- A `SmartAttributesFPS` subclass as the checks see it: whether a
`_DICT_METADATA` attribute exists, its entries (ordered, unique keys), and
the merged annotation keys `_cls_find_annotations` computes (own plus
inherited annotations, `_DICT_METADATA` removed). -/
structure SmartClsSpec where
  hasMetadata : Bool
  metadata : List (String × List PyVal)
  annotations : List String
  deriving DecidableEq, Repr

/-- Python `dict_keys == dict_keys` is set equality of the key views. -/
def sameKeySet (a b : List String) : Bool :=
  a.all b.contains && b.all a.contains

/-- `isinstance(comment, str) and isinstance(tipe, FPS_type) and
isinstance(flag, FPS_flags)` on an unpacked 3-tuple. -/
def tupleTypesOK : List PyVal → Bool
  | [.vstr _, .vFPSType _, .vFPSFlags _] => true
  | _ => false

/-- The per-entry loop of `_cls_metadata_checks`: length 3 first, then the
three isinstance checks; the first bad entry raises. -/
def checkEntries : List (String × List PyVal) → Except SmartFPSInitError Unit
  | [] => .ok ()
  | (p, t) :: rest =>
    if t.length ≠ 3 then .error (.tupleNotLen3 p)
    else if ¬tupleTypesOK t then .error (.tupleTypeNotOK p)
    else checkEntries rest

/-- `SmartAttributesFPS._cls_metadata_checks`. -/
def cls_metadata_checks (c : SmartClsSpec) : Except SmartFPSInitError Unit :=
  if ¬c.hasMetadata then .error .missingMetadata
  else if ¬sameKeySet (c.metadata.map Prod.fst) c.annotations then
    .error .annotationsDiffer
  else checkEntries c.metadata

/-- Executing the `class` statement for a `SmartAttributesFPS` subclass runs
no validation hook (the base class declares no metaclass and no
`__init_subclass__`): class definition always succeeds. -/
def smart_class_define (c : SmartClsSpec) : Except SmartFPSInitError SmartClsSpec :=
  .ok c

/-- `SmartAttributesFPS.__new__`: `_cls_metadata_checks` runs first; only
when it passes does `super().__new__` produce the instance. -/
def smart_new (c : SmartClsSpec) : Except SmartFPSInitError Unit :=
  (cls_metadata_checks c).map fun _ => ()

/-!  ## `check_SHM_name` (stream name resolution)  -/

/-- Python `l.startswith(p)` on character lists. -/
def pyStartswith : List Char → List Char → Bool
  | _, [] => true
  | [], _ :: _ => false
  | c :: cs, q :: qs => c == q && pyStartswith cs qs

/-- Python `l.endswith(suf)` on character lists. -/
def pyEndswith (l suf : List Char) : Bool :=
  pyStartswith l.reverse suf.reverse

/-- `p.rfind('/') + 1`, i.e. 0 when there is no slash. -/
def rfindSlashSucc : List Char → Nat
  | [] => 0
  | c :: rest =>
    let r := rfindSlashSucc rest
    if r ≠ 0 then r + 1 else if c = '/' then 1 else 0

/-- `head.rstrip('/')`. -/
def rstripSlashes (l : List Char) : List Char :=
  (l.reverse.dropWhile fun c => c = '/').reverse

/-- posix `os.path.split`: split after the last slash; strip trailing
slashes from the head unless it is empty or all slashes. -/
def ospath_split (p : List Char) : List Char × List Char :=
  let i := rfindSlashSucc p
  let head := p.take i
  let tail := p.drop i
  if head ≠ [] ∧ ¬(head.all fun c => c = '/') then (rstripSlashes head, tail)
  else (head, tail)

def imShmSuffix : List Char := ".im.shm".toList

/-- `check_SHM_name(fname)` with the configured root directory
(`MILK_SHM_DIR`) passed explicitly: plain names get a trailing `.im.shm`
stripped; path-like names must sit directly under the root. -/
def check_SHM_name (root fname : List Char) : Except PyErr (List Char) :=
  if ¬('/' ∈ fname) then
    if pyEndswith fname imShmSuffix then .ok (fname.take (fname.length - 7))
    else .ok fname
  else
    if ¬pyStartswith (ospath_split fname).1 root ∨
        (root.length < (ospath_split fname).1.length ∧
          (ospath_split fname).1[root.length]? ≠ some '/') then
      .error .valueError
    else if '/' ∈ (ospath_split fname).1.drop root.length then .error .valueError
    else if pyEndswith (ospath_split fname).2 imShmSuffix then
      .ok ((ospath_split fname).2.take ((ospath_split fname).2.length - 7))
    else .ok (ospath_split fname).2

theorem pyStartswith_iff (l p : List Char) :
    pyStartswith l p = true ↔ ∃ t, l = p ++ t := by
  induction p generalizing l with
  | nil => simp [pyStartswith]
  | cons q qs ih =>
    cases l with
    | nil => simp [pyStartswith]
    | cons c cs =>
      rw [pyStartswith]
      simp only [Bool.and_eq_true, beq_iff_eq, ih]
      constructor
      · rintro ⟨hc, t, ht⟩
        exact ⟨t, by simp [hc, ht]⟩
      · rintro ⟨t, ht⟩
        simp only [List.cons_append, List.cons.injEq] at ht
        exact ⟨ht.1, t, ht.2⟩

theorem pyStartswith_self (l : List Char) : pyStartswith l l = true := by
  rw [pyStartswith_iff]
  exact ⟨[], by simp⟩

theorem getElem_append_self (root t : List Char) (c : Char) :
    (root ++ c :: t)[root.length]? = some c := by
  rw [List.getElem?_append_right (le_refl _)]
  simp

/-- For a path-like name, the source accepts exactly the names whose
(normalized) dirname equals the root. -/
theorem check_SHM_name_path_ok (root fname : List Char) (hsl : '/' ∈ fname)
    (hpre : (ospath_split fname).1 = root) :
    check_SHM_name root fname =
      .ok (if pyEndswith (ospath_split fname).2 imShmSuffix then
             (ospath_split fname).2.take ((ospath_split fname).2.length - 7)
           else (ospath_split fname).2) := by
  rw [check_SHM_name, if_neg (not_not_intro hsl)]
  have hA : ¬(¬pyStartswith (ospath_split fname).1 root = true ∨
      (root.length < (ospath_split fname).1.length ∧
        (ospath_split fname).1[root.length]? ≠ some '/')) := by
    rw [hpre]
    simp [pyStartswith_self]
  rw [if_neg hA]
  have hB : ¬('/' ∈ (ospath_split fname).1.drop root.length) := by
    rw [hpre]
    simp
  rw [if_neg hB]
  split <;> rfl

theorem check_SHM_name_path_err (root fname : List Char) (hsl : '/' ∈ fname)
    (hpre : (ospath_split fname).1 ≠ root) :
    check_SHM_name root fname = .error .valueError := by
  rw [check_SHM_name, if_neg (not_not_intro hsl)]
  by_cases hst : pyStartswith (ospath_split fname).1 root = true
  · obtain ⟨t, ht⟩ := (pyStartswith_iff _ _).mp hst
    cases t with
    | nil => exact absurd (by rw [ht]; simp) hpre
    | cons c t' =>
      rw [ht]
      have hst' : pyStartswith (root ++ c :: t') root = true :=
        (pyStartswith_iff _ _).mpr ⟨c :: t', rfl⟩
      have hget : (root ++ c :: t')[root.length]? = some c :=
        getElem_append_self root t' c
      have hlt : root.length < (root ++ c :: t').length := by
        simp
      by_cases hslash : c = '/'
      · subst hslash
        have hA : ¬(¬pyStartswith (root ++ '/' :: t') root = true ∨
            (root.length < (root ++ '/' :: t').length ∧
              (root ++ '/' :: t')[root.length]? ≠ some '/')) := by
          simp [hst', hget]
        rw [if_neg hA]
        have hB : '/' ∈ (root ++ '/' :: t').drop root.length := by
          rw [List.drop_left]
          exact List.mem_cons_self '/' t'
        rw [if_pos hB]
      · have hA : ¬pyStartswith (root ++ c :: t') root = true ∨
            (root.length < (root ++ c :: t').length ∧
              (root ++ c :: t')[root.length]? ≠ some '/') :=
          Or.inr ⟨hlt, by rw [hget]; simp [hslash]⟩
        rw [if_pos hA]
  · rw [if_pos (Or.inl hst)]

/-!  ## Concrete sample data for witnesses and counterexamples  -/

def sampleImg : Img Nat := ⟨2, 3, fun i j => i.val * 3 + j.val⟩

def sampleCube : Cube Nat := ⟨2, 3, 4, fun i j k => (i.val * 3 + j.val) * 4 + k.val⟩

/-- A cube with singleton dimensions. -/
def sampleCubeS : Cube Nat := ⟨1, 3, 1, fun _ j _ => j.val⟩

def sampleNDA : NDA Nat := ⟨[2, 1, 3], fun ix => ix.1.val * 3 + ix.2.2.1.val⟩

def sampleArr1 : NDArr Nat := .a1 3 fun i => i.val

/-!  ## Claim theorems  -/

/-- C1: for every 3D array `x` (any shape, singleton dimensions included),
every symcode `s ∈ [0,7]` and every tridim state `t ∈ [0,3]`,
`full_cube_decode (full_cube_encode x s t) s t = x` exactly; encode applies
the axis symmetry then the roll, decode the roll then the axis symmetry. -/
theorem claim_C1_full_cube_roundtrip {α : Type} (x : Cube α) (s t : Int)
    (hs0 : 0 ≤ s) (hs8 : s < 8) (ht0 : 0 ≤ t) (ht4 : t < 4) :
    (full_cube_encode x s t).bind (fun y => full_cube_decode y s t) = .ok x :=
  full_cube_roundtrip x s t hs0 hs8 ht0 ht4

theorem claim_C1_witness :
    ((0:Int) ≤ 5 ∧ (5:Int) < 8 ∧ (0:Int) ≤ 1 ∧ (1:Int) < 4) ∧
    (full_cube_encode sampleCube 5 1).bind (fun y => full_cube_decode y 5 1) =
      .ok sampleCube ∧
    (full_cube_encode sampleCubeS 5 1).bind (fun y => full_cube_decode y 5 1) =
      .ok sampleCubeS :=
  ⟨⟨by decide, by decide, by decide, by decide⟩,
   claim_C1_full_cube_roundtrip sampleCube 5 1 (by decide) (by decide)
     (by decide) (by decide),
   claim_C1_full_cube_roundtrip sampleCubeS 5 1 (by decide) (by decide)
     (by decide) (by decide)⟩

/-- C2: for 2D and 3D arrays of any element type and every symcode
`s ∈ [0,7]`, `decode (encode x s) s = x` exactly, where decode is encode
through the inverse-code table `[0,1,2,3,4,6,5,7]` (5 and 6 swap, all other
codes are self-inverse).  1D arrays receive no symmetry transform in the
source, so their instance of the claim is the identity. -/
theorem claim_C2_decode_encode_identity {α : Type} (s : Int) (h0 : 0 ≤ s)
    (h8 : s < 8) :
    (∀ x : Img α, (image_encode x s).bind (fun y => image_decode y s) = .ok x) ∧
    (∀ c : Cube α,
      (cube_front_image_encode c s).bind (fun y => cube_front_image_decode y s) =
        .ok c) ∧
    (∀ c : Cube α,
      (cube_back_image_encode c s).bind (fun y => cube_back_image_decode y s) =
        .ok c) ∧
    pyListGet invTable 5 = .ok 6 ∧ pyListGet invTable 6 = .ok 5 ∧
    (s ≠ 5 → s ≠ 6 → pyListGet invTable s = .ok s) := by
  refine ⟨fun x => image_roundtrip x s h0 h8,
    fun c => cube_front_roundtrip c s h0 h8,
    fun c => cube_back_roundtrip c s h0 h8,
    invTable_get5, invTable_get6, fun h5 h6 => ?_⟩
  interval_cases s
  · exact invTable_get0
  · exact invTable_get1
  · exact invTable_get2
  · exact invTable_get3
  · exact invTable_get4
  · exact absurd rfl h5
  · exact absurd rfl h6
  · exact invTable_get7

theorem claim_C2_witness :
    ((0:Int) ≤ 5 ∧ (5:Int) < 8) ∧
    (image_encode sampleImg 5).bind (fun y => image_decode y 5) = .ok sampleImg ∧
    (cube_front_image_encode sampleCube 5).bind
      (fun y => cube_front_image_decode y 5) = .ok sampleCube :=
  ⟨⟨by decide, by decide⟩,
   (claim_C2_decode_encode_identity 5 (by decide) (by decide)).1 sampleImg,
   (claim_C2_decode_encode_identity 5 (by decide) (by decide)).2.1 sampleCube⟩

/-- C3 counterexample: the claim says every symmetry transform raises
`ValueError` for every code outside `[0,7]` and none silently succeeds.  In
fact `image_decode x (-1)` silently succeeds (Python negative indexing into
the inverse table picks code 7), the cube encodes silently succeed for code 8
(the `s > 3` recursion has no upper bound and lands back in `[0,3]`), and
`image_decode x 8` raises `IndexError`, not `ValueError`. -/
theorem claim_C3_counterexample :
    image_decode sampleImg (-1) = .ok sampleImg.transpose.flip0.flip1 ∧
    cube_front_image_encode sampleCube 8 = .ok sampleCube ∧
    cube_back_image_encode sampleCube 8 = .ok sampleCube ∧
    image_decode sampleImg 8 = .error .indexError := by
  refine ⟨rfl, ?_, ?_, rfl⟩
  · rw [cube_front_image_encode, if_pos (by decide), cube_front_image_encode,
      if_pos (by decide), cube_front_image_encode, if_neg (by decide)]
    rfl
  · rw [cube_back_image_encode, if_pos (by decide), cube_back_image_encode,
      if_pos (by decide), cube_back_image_encode, if_neg (by decide)]
    rfl

/-- C3 amended: `image_encode` raises `ValueError` for every code outside
`[0,7]`.  The cube encodes raise `ValueError` exactly for negative codes but
silently succeed for every code above 7 (repeatedly subtracting 4, swapping
the image axes each step, until the code lands in `[0,3]`).  The decode
variants index the inverse table with Python semantics: codes in `[-8,-1]`
silently succeed (table entry at `s+8`), and codes `≥ 8` or `< -8` raise
`IndexError` rather than `ValueError`. -/
theorem claim_C3_amended {α : Type} (s : Int) :
    (∀ x : Img α, (s < 0 ∨ 7 < s) → image_encode x s = .error .valueError) ∧
    (∀ c : Cube α, s < 0 →
      cube_front_image_encode c s = .error .valueError ∧
      cube_back_image_encode c s = .error .valueError) ∧
    (∀ c : Cube α, 7 < s →
      (∃ y, cube_front_image_encode c s = .ok y) ∧
      (∃ y, cube_back_image_encode c s = .ok y)) ∧
    ((s < -8 ∨ 8 ≤ s) → ∀ (x : Img α) (c : Cube α),
      image_decode x s = .error .indexError ∧
      cube_front_image_decode c s = .error .indexError ∧
      cube_back_image_decode c s = .error .indexError) ∧
    ((-8 ≤ s ∧ s < 0) → ∀ (x : Img α) (c : Cube α),
      (∃ y, image_decode x s = .ok y) ∧
      (∃ y, cube_front_image_decode c s = .ok y) ∧
      (∃ y, cube_back_image_decode c s = .ok y)) := by
  refine ⟨fun x h => image_encode_out_of_range x s h,
    fun c h => ⟨cube_front_encode_neg c s h, cube_back_encode_neg c s h⟩,
    fun c h => ⟨cube_front_encode_ok_of_nonneg s.toNat c s rfl (by omega),
      cube_back_encode_ok_of_nonneg s.toNat c s rfl (by omega)⟩,
    fun h x c => ?_, fun h x c => ?_⟩
  · have he := pyListGet_invTable_of_out s h
    refine ⟨?_, ?_, ?_⟩ <;>
      simp [image_decode, cube_front_image_decode, cube_back_image_decode, he,
        Except.bind]
  · obtain ⟨v, hv, hv0, hv7⟩ := pyListGet_invTable_of_neg s h.1 h.2
    refine ⟨?_, ?_, ?_⟩
    · obtain ⟨y, hy⟩ := image_encode_isOk x v hv0 (by omega)
      exact ⟨y, by simp [image_decode, hv, Except.bind, hy]⟩
    · obtain ⟨y, hy⟩ := cube_front_encode_ok_of_nonneg v.toNat c v rfl hv0
      exact ⟨y, by simp [cube_front_image_decode, hv, Except.bind, hy]⟩
    · obtain ⟨y, hy⟩ := cube_back_encode_ok_of_nonneg v.toNat c v rfl hv0
      exact ⟨y, by simp [cube_back_image_decode, hv, Except.bind, hy]⟩

theorem claim_C3_witness :
    image_encode sampleImg 9 = .error .valueError ∧
    (∃ y, cube_front_image_encode sampleCube 9 = .ok y) ∧
    (∃ y, image_decode sampleImg (-3) = .ok y) ∧
    image_decode sampleImg 12 = .error .indexError :=
  ⟨(claim_C3_amended 9).1 sampleImg (Or.inr (by decide)),
   ((claim_C3_amended 9).2.2.1 sampleCube (by decide)).1,
   ((claim_C3_amended (-3)).2.2.2.2 ⟨by decide, by decide⟩ sampleImg sampleCube).1,
   ((claim_C3_amended 12).2.2.2.1 (Or.inr (by decide)) sampleImg sampleCube).1⟩

/-- C4: for every wire shape and autoSqueeze flag,
`gen_squeeze_unsqueeze_slices` returns a read and a write projection with
`write_slice (read_slice x) = x` for every array of that shape; with
autoSqueeze disabled both projections are the identity (Ellipsis). -/
theorem claim_C4_squeeze_roundtrip {α : Type} (shape : List Nat) (aS : Bool)
    (x : NDA α) (hx : x.shape = shape) :
    ((applyRSlice (gen_squeeze_unsqueeze_slices shape aS).1 x).bind
       (fun y => applyWSlice (gen_squeeze_unsqueeze_slices shape aS).2 y) =
      some x) ∧
    (aS = false →
      gen_squeeze_unsqueeze_slices shape aS = (.ellipsis, .ellipsis) ∧
      applyRSlice .ellipsis x = some x ∧ applyWSlice .ellipsis x = some x) :=
  ⟨squeeze_unsqueeze_roundtrip shape aS x hx,
   fun h => by subst h; exact ⟨rfl, rfl, rfl⟩⟩

theorem claim_C4_witness :
    sampleNDA.shape = [2, 1, 3] ∧
    (applyRSlice (gen_squeeze_unsqueeze_slices [2, 1, 3] true).1 sampleNDA).bind
      (fun y => applyWSlice (gen_squeeze_unsqueeze_slices [2, 1, 3] true).2 y) =
      some sampleNDA ∧
    gen_squeeze_unsqueeze_slices [2, 1, 3] false = (.ellipsis, .ellipsis) :=
  ⟨rfl, (claim_C4_squeeze_roundtrip [2, 1, 3] true sampleNDA rfl).1,
   ((claim_C4_squeeze_roundtrip [2, 1, 3] false sampleNDA rfl).2 rfl).1⟩

/-- A malformed `SmartAttributesFPS` subclass: `_DICT_METADATA` has key
`gain` but the annotation set is empty. -/
def badSmartCls : SmartClsSpec :=
  ⟨true, [("gain", [.vstr "a gain", .vFPSType 9, .vFPSFlags 5])], []⟩

theorem checkEntries_err (l : List (String × List PyVal))
    (h : ∃ e ∈ l, e.2.length ≠ 3 ∨ tupleTypesOK e.2 = false) :
    ∃ err, checkEntries l = .error err := by
  induction l with
  | nil => simp at h
  | cons a rest ih =>
    obtain ⟨p, t⟩ := a
    rw [checkEntries]
    by_cases h3 : t.length ≠ 3
    · exact ⟨_, by rw [if_pos h3]⟩
    · rw [if_neg h3]
      by_cases hty : tupleTypesOK t = true
      · rw [if_neg (by simp [hty])]
        rcases h with ⟨e, he, hbad⟩
        rcases List.mem_cons.mp he with rfl | hrest
        · rcases hbad with hb | hb
          · exact absurd hb h3
          · rw [hty] at hb
            exact absurd hb (by simp)
        · exact ih ⟨e, hrest, hbad⟩
      · exact ⟨_, by rw [if_pos (by simpa using hty)]⟩

/-- C5 counterexample: the claim says a subclass whose annotation set does
not match its `_DICT_METADATA` keys faults at class-definition time.  In
fact defining such a subclass succeeds (no metaclass or `__init_subclass__`
hook exists); the fault only occurs at first instantiation, in `__new__`. -/
theorem claim_C5_counterexample :
    smart_class_define badSmartCls = .ok badSmartCls ∧
    smart_new badSmartCls = .error .annotationsDiffer :=
  ⟨rfl, rfl⟩

/-- C5 amended: for every subclass whose annotation set differs from its
`_DICT_METADATA` key set or whose `_DICT_METADATA` has a malformed entry
(not a 3-tuple of string/FPS_type/FPS_flags), the validation in `__new__`
faults at first instantiation, before the instance is constructed —
instantiation is blocked, never merely warned. -/
theorem claim_C5_amended (c : SmartClsSpec)
    (h : sameKeySet (c.metadata.map Prod.fst) c.annotations = false ∨
         ∃ e ∈ c.metadata, e.2.length ≠ 3 ∨ tupleTypesOK e.2 = false) :
    ∃ err, smart_new c = .error err := by
  rw [smart_new, cls_metadata_checks]
  by_cases hm : c.hasMetadata = true
  · rw [if_neg (by simp [hm])]
    by_cases hk : sameKeySet (c.metadata.map Prod.fst) c.annotations = true
    · rw [if_neg (by simp [hk])]
      rcases h with hbad | hbad
      · rw [hk] at hbad
        exact absurd hbad (by simp)
      · obtain ⟨err, herr⟩ := checkEntries_err c.metadata hbad
        exact ⟨err, by rw [herr]; rfl⟩
    · rw [if_pos (by simpa using hk)]
      exact ⟨.annotationsDiffer, rfl⟩
  · rw [if_pos (by simpa using hm)]
    exact ⟨.missingMetadata, rfl⟩

theorem claim_C5_witness :
    (sameKeySet (badSmartCls.metadata.map Prod.fst) badSmartCls.annotations =
      false ∨
     ∃ e ∈ badSmartCls.metadata, e.2.length ≠ 3 ∨ tupleTypesOK e.2 = false) ∧
    ∃ err, smart_new badSmartCls = .error err :=
  ⟨Or.inl rfl, claim_C5_amended badSmartCls (Or.inl rfl)⟩

/-- C6: `get_param`/`set_param` on a key that was never registered raise
`ValueError`; a successful `set_param` implies the key was registered and
registers nothing new; registered keys are routed to the underlying store
without fault. -/
theorem claim_C6_param_key_boundary (h : FPSHandle) (key : String) (v : FPVal) :
    (key ∉ h.key_types →
      set_param h key v = .error .valueError ∧
      get_param h key = .error .valueError) ∧
    (∀ h2, set_param h key v = .ok h2 →
      key ∈ h.key_types ∧ h2.key_types = h.key_types) ∧
    (key ∈ h.key_types →
      set_param h key v =
        .ok { h with store := fun k => if k = key then v else h.store k } ∧
      get_param h key = .ok (h.store key)) := by
  refine ⟨fun hk => ?_, fun h2 hok => ?_, fun hk => ?_⟩
  · rw [set_param, if_neg hk, get_param, if_neg hk]
    exact ⟨rfl, rfl⟩
  · rw [set_param] at hok
    by_cases hk : key ∈ h.key_types
    · rw [if_pos hk] at hok
      injection hok with hok
      exact ⟨hk, by rw [← hok]⟩
    · rw [if_neg hk] at hok
      exact absurd hok (by simp)
  · rw [set_param, if_pos hk, get_param, if_pos hk]
    exact ⟨rfl, rfl⟩

def sampleFPS : FPSHandle := ⟨["gain", "Name"], fun _ => .vint 0⟩

theorem claim_C6_witness :
    ("nope" ∉ sampleFPS.key_types ∧ "gain" ∈ sampleFPS.key_types) ∧
    set_param sampleFPS "nope" (.vint 3) = .error .valueError ∧
    get_param sampleFPS "nope" = .error .valueError ∧
    get_param sampleFPS "gain" = .ok (sampleFPS.store "gain") :=
  ⟨⟨by decide, by decide⟩,
   ((claim_C6_param_key_boundary sampleFPS "nope" (.vint 3)).1 (by decide)).1,
   ((claim_C6_param_key_boundary sampleFPS "nope" (.vint 3)).1 (by decide)).2,
   ((claim_C6_param_key_boundary sampleFPS "gain" (.vint 3)).2.2 (by decide)).2⟩

/-- C7: `get_data` with `check=True` and a finite positive timeout does not
raise when `semtimedwait` returns nonzero: it flags the stale-data warning
and returns the last available data after the usual read-side decode, for a
handle whose inode matches (no relink) on a CPU-resident stream (or with
`copy=True`). -/
theorem claim_C7_timeout_stale_data {α : Type} (h : SHMHandle α)
    (env : SHMEnv α) (t : ℚ) (copy csf ar : Bool)
    (hinode : h.storedInode = env.currentInode) (ht : 0 < t)
    (herr : env.semTimedWaitErr ≠ 0) (hloc : h.location < 0 ∨ copy = true) :
    get_data h env true (some t) copy csf ar =
      (shm_read_decode h.nDim h.symcode h.triDimState h.readSlice env.image).map
        (fun d => (true, d)) ∧
    ∀ d, shm_read_decode h.nDim h.symcode h.triDimState h.readSlice env.image =
        .ok d →
      get_data h env true (some t) copy csf ar = .ok (true, d) := by
  have hmain : get_data h env true (some t) copy csf ar =
      (shm_read_decode h.nDim h.symcode h.triDimState h.readSlice env.image).map
        (fun d => (true, d)) := by
    have hnl : ¬t ≤ 0 := not_le.mpr ht
    have hcopy : ¬(0 ≤ h.location ∧ copy = false) := by
      rcases hloc with hl | hc
      · intro hcon
        omega
      · intro hcon
        rw [hc] at hcon
        exact absurd hcon.2 (by simp)
    cases ar <;> cases csf <;>
      simp [get_data, attempt_autorelink_if_needed, hinode, Except.bind, hnl,
        herr, hcopy]
  exact ⟨hmain, fun d hd => by rw [hmain, hd]; rfl⟩

def sampleHandle : SHMHandle Nat :=
  ⟨[2], [2], 1, 4, 0, .ellipsis, .ellipsis, -1, none, .f32, 7⟩

def sampleEnv : SHMEnv Nat :=
  ⟨7, true, [2], .f32, 0, 110, ⟨[2], fun ix => ix.1.val⟩⟩

theorem claim_C7_witness :
    (sampleHandle.storedInode = sampleEnv.currentInode ∧ (0:ℚ) < 5 ∧
      sampleEnv.semTimedWaitErr ≠ 0 ∧ sampleHandle.location < 0) ∧
    get_data sampleHandle sampleEnv true (some 5) true true true =
      (shm_read_decode sampleHandle.nDim sampleHandle.symcode
        sampleHandle.triDimState sampleHandle.readSlice sampleEnv.image).map
        (fun d => (true, d)) :=
  ⟨⟨rfl, by decide, by decide, by decide⟩,
   (claim_C7_timeout_stale_data sampleHandle sampleEnv 5 true true true rfl
     (by decide) (by decide) (Or.inl (by decide))).1⟩

/-- C9: whenever the stored inode differs from the file's current inode:
a failed reopen raises the generic relink error; a wire-shape mismatch of
the reopened stream raises the distinct size-mismatch kind; a dtype mismatch
raises the distinct type-mismatch kind — and the three error kinds are
pairwise distinguishable. -/
theorem claim_C9_autorelink_errors {α : Type} (h : SHMHandle α)
    (env : SHMEnv α) (hmm : h.storedInode ≠ env.currentInode) :
    (env.reopenOK = false →
      attempt_autorelink_if_needed h env = .error (.autoRelink .generic)) ∧
    (env.reopenOK = true → h.shape_c ≠ env.newSize →
      attempt_autorelink_if_needed h env = .error (.autoRelink .size)) ∧
    (env.reopenOK = true → h.shape_c = env.newSize →
      env.newDType ≠ h.nptype →
      attempt_autorelink_if_needed h env = .error (.autoRelink .type)) ∧
    ((PyErr.autoRelink .size ≠ .autoRelink .generic) ∧
     (PyErr.autoRelink .type ≠ .autoRelink .generic) ∧
     (PyErr.autoRelink .size ≠ .autoRelink .type)) := by
  refine ⟨fun hro => ?_, fun hro hsz => ?_, fun hro hsz hty => ?_,
    by decide, by decide, by decide⟩
  · simp [attempt_autorelink_if_needed, hmm, hro]
  · simp [attempt_autorelink_if_needed, hmm, hro, hsz]
  · simp [attempt_autorelink_if_needed, hmm, hro, hsz]
    intro h2
    exact absurd h2 hty

def sampleEnvReopenFail : SHMEnv Nat :=
  ⟨8, false, [2], .f32, 0, 0, ⟨[2], fun ix => ix.1.val⟩⟩

def sampleEnvSizeMismatch : SHMEnv Nat :=
  ⟨8, true, [4], .f32, 0, 0, ⟨[4], fun ix => ix.1.val⟩⟩

def sampleEnvTypeMismatch : SHMEnv Nat :=
  ⟨8, true, [2], .f64, 0, 0, ⟨[2], fun ix => ix.1.val⟩⟩

theorem claim_C9_witness :
    (sampleHandle.storedInode ≠ (8 : Nat)) ∧
    attempt_autorelink_if_needed sampleHandle sampleEnvReopenFail =
      .error (.autoRelink .generic) ∧
    attempt_autorelink_if_needed sampleHandle sampleEnvSizeMismatch =
      .error (.autoRelink .size) ∧
    attempt_autorelink_if_needed sampleHandle sampleEnvTypeMismatch =
      .error (.autoRelink .type) :=
  ⟨by decide,
   (claim_C9_autorelink_errors sampleHandle sampleEnvReopenFail (by decide)).1
     rfl,
   (claim_C9_autorelink_errors sampleHandle sampleEnvSizeMismatch
     (by decide)).2.1 rfl (by decide),
   (claim_C9_autorelink_errors sampleHandle sampleEnvTypeMismatch
     (by decide)).2.2.1 rfl rfl (by decide)⟩

/-- C10: on the creation path the `autoSqueeze` constructor argument has no
effect; the generated read and write projections are always the identity
(squeezing disabled), the user shape equals the passed data's shape, and a
singleton dimension only triggers the printed warning, never a squeeze. -/
theorem claim_C10_creation_ignores_autosqueeze {α : Type} (data : NDArr α)
    (aS aS2 : Bool) (s t : Int) :
    shm_init_creation data aS s t = shm_init_creation data aS2 s t ∧
    (∀ r dc, shm_init_creation data aS s t = .ok (r, dc) →
      r.readSlice = .ellipsis ∧ r.writeSlice = .ellipsis ∧
      (∀ x : NDA α,
        applyRSlice RSlice.ellipsis x = some x ∧
        applyWSlice WSlice.ellipsis x = some x) ∧
      r.shape = data.shapeList ∧ r.nDim = data.shapeList.length ∧
      r.warnedSingleton = decide (1 ∈ data.shapeList)) := by
  refine ⟨rfl, fun r dc hok => ?_⟩
  cases data with
  | a1 n d =>
    simp only [shm_init_creation, init_internals_creation, Except.map,
      Except.ok.injEq, Prod.mk.injEq] at hok
    obtain ⟨hr, hdc⟩ := hok
    subst hr
    exact ⟨rfl, rfl, fun x => ⟨rfl, rfl⟩, rfl, rfl, rfl⟩
  | a2 im =>
    rcases he : image_encode im s with e | y
    · simp only [shm_init_creation, init_internals_creation, he,
        Except.map] at hok
      exact absurd hok (by simp)
    · simp only [shm_init_creation, init_internals_creation, he, Except.map,
        Except.ok.injEq, Prod.mk.injEq] at hok
      obtain ⟨hr, hdc⟩ := hok
      subst hr
      exact ⟨rfl, rfl, fun x => ⟨rfl, rfl⟩, rfl, rfl, rfl⟩
  | a3 cu =>
    rcases he : full_cube_encode cu s t with e | y
    · simp only [shm_init_creation, init_internals_creation, he,
        Except.map] at hok
      exact absurd hok (by simp)
    · simp only [shm_init_creation, init_internals_creation, he, Except.map,
        Except.ok.injEq, Prod.mk.injEq] at hok
      obtain ⟨hr, hdc⟩ := hok
      subst hr
      exact ⟨rfl, rfl, fun x => ⟨rfl, rfl⟩, rfl, rfl, rfl⟩

theorem claim_C10_witness :
    (shm_init_creation sampleArr1 true 4 0 =
      shm_init_creation sampleArr1 false 4 0) ∧
    (CreationInternals.mk [3] 1 false .ellipsis .ellipsis [3]).readSlice =
      .ellipsis ∧
    (CreationInternals.mk [3] 1 false .ellipsis .ellipsis [3]).shape =
      sampleArr1.shapeList ∧
    (CreationInternals.mk [3] 1 false .ellipsis .ellipsis [3]).warnedSingleton =
      decide (1 ∈ sampleArr1.shapeList) := by
  have happ := (claim_C10_creation_ignores_autosqueeze sampleArr1 true false
    4 0).2 (CreationInternals.mk [3] 1 false .ellipsis .ellipsis [3])
    sampleArr1 rfl
  exact ⟨(claim_C10_creation_ignores_autosqueeze sampleArr1 true false 4 0).1,
    happ.1, happ.2.2.2.1, happ.2.2.2.2.2⟩

/-- C8: a plain stream name (no path separator) is returned with a trailing
`.im.shm` stripped, otherwise unchanged; a path-like name must resolve to a
file directly under the configured root, exactly one level deep — a prefix
outside the root or a nested subdirectory raises `ValueError`. -/
theorem claim_C8_name_resolution (root fname : List Char) :
    (¬('/' ∈ fname) →
      check_SHM_name root fname =
        .ok (if pyEndswith fname imShmSuffix then
               fname.take (fname.length - 7)
             else fname)) ∧
    ('/' ∈ fname → (ospath_split fname).1 = root →
      check_SHM_name root fname =
        .ok (if pyEndswith (ospath_split fname).2 imShmSuffix then
               (ospath_split fname).2.take ((ospath_split fname).2.length - 7)
             else (ospath_split fname).2)) ∧
    ('/' ∈ fname → (ospath_split fname).1 ≠ root →
      check_SHM_name root fname = .error .valueError) := by
  refine ⟨fun hsl => ?_, fun hsl hpre => check_SHM_name_path_ok root fname hsl
    hpre, fun hsl hpre => check_SHM_name_path_err root fname hsl hpre⟩
  rw [check_SHM_name, if_pos hsl]
  by_cases hsuf : pyEndswith fname imShmSuffix = true
  · rw [if_pos hsuf, if_pos hsuf]
  · rw [if_neg hsuf, if_neg hsuf]

theorem claim_C8_witness :
    check_SHM_name "/milk".toList "toto.im.shm".toList = .ok "toto".toList ∧
    check_SHM_name "/milk".toList "/milk/toto.im.shm".toList =
      .ok "toto".toList ∧
    check_SHM_name "/milk".toList "/milk/sub/toto.im.shm".toList =
      .error .valueError ∧
    check_SHM_name "/milk".toList "/opt/toto.im.shm".toList =
      .error .valueError := by
  refine ⟨?_, ?_, ?_, ?_⟩
  · have happ := (claim_C8_name_resolution "/milk".toList
      "toto.im.shm".toList).1 (by decide)
    rw [happ]
    rfl
  · have happ := (claim_C8_name_resolution "/milk".toList
      "/milk/toto.im.shm".toList).2.1 (by decide) (by decide)
    rw [happ]
    rfl
  · exact (claim_C8_name_resolution "/milk".toList
      "/milk/sub/toto.im.shm".toList).2.2 (by decide) (by decide)
  · exact (claim_C8_name_resolution "/milk".toList
      "/opt/toto.im.shm".toList).2.2 (by decide) (by decide)

end PyMilk
